import Mathlib

/-!
Verification development for the `vibe` MCP configuration deployment tool.

The embedded code comes from the repository sources:
  * `src/config.ts` (schemas, target table, built-in exclusion set),
  * `src/utils.ts` (`expandEnvVars`, `filterServersForTarget`),
  * `src/deploy.ts` (`loadMcpSettings`, `convertToToml`, `FORMAT_STRATEGIES`,
    `deployToTarget`, `deployAll`).

JSON values are modelled by the inductive type `JValue`; JavaScript objects are
association lists preserving key insertion order, as `Object.entries` /
`Object.fromEntries` do.  The process environment is an association list of
variable names to string values (a missing entry models an unset variable).
File-system effects are modelled explicitly: the canonical settings file is a
`FileState` and writability of each target path is a boolean oracle.
-/

namespace Vibe

/-- A JSON-like value, as produced by `JSON.parse`: strings, integers
(the repository's documents only contain integer numbers), booleans, null,
arrays, and objects as ordered key/value lists. -/
inductive JValue where
  | str : String → JValue
  | num : Int → JValue
  | bool : Bool → JValue
  | null : JValue
  | arr : List JValue → JValue
  | obj : List (String × JValue) → JValue

/-- The process environment: an ordered list of `NAME=value` bindings.
`process.env[n]` is the first binding of `n`, or `undefined` (here `none`). -/
abbrev Env : Type := List (String × String)

/-- `process.env[n]` : the value of `n` when set, `none` when unset. -/
def envGet (e : Env) (n : String) : Option String :=
  match e with
  | [] => none
  | p :: rest => if p.1 = n then some p.2 else envGet rest n

/-- First character of an environment-variable name: `[A-Z_]`. -/
def isVarStart (c : Char) : Bool :=
  ('A' ≤ c && c ≤ 'Z') || c = '_'

/-- Subsequent characters of an environment-variable name: `[A-Z0-9_]`. -/
def isVarChar (c : Char) : Bool :=
  isVarStart c || ('0' ≤ c && c ≤ '9')

/-- Greedy maximal run of `[A-Z0-9_]` characters: the `*` part of the
regular expressions `\$\{([A-Z_][A-Z0-9_]*)\}` and `\$([A-Z_][A-Z0-9_]*)`.
Returns the run and the remaining characters. -/
def takeVarRun : List Char → List Char × List Char
  | [] => ([], [])
  | c :: rest =>
    if isVarChar c then
      let p := takeVarRun rest
      (c :: p.1, p.2)
    else ([], c :: rest)

/-- Attempt to match the braced pattern `\$\{([A-Z_][A-Z0-9_]*)\}` at the head
of the character list.  On success returns the captured name and the
characters after the match.  Because the name character class excludes the
closing brace, the regex engine's greedy match followed by the literal brace
is exactly: maximal name run, then a required closing brace. -/
def matchBraced (cs : List Char) : Option (String × List Char) :=
  match cs with
  | c1 :: rest1 =>
    if c1 = '$' then
      match rest1 with
      | c2 :: rest2 =>
        if c2 = '\x7b' then
          match rest2 with
          | c3 :: rest3 =>
            if isVarStart c3 then
              let p := takeVarRun rest3
              match p.2 with
              | c4 :: r2 =>
                if c4 = '\x7d' then some (String.mk (c3 :: p.1), r2) else none
              | [] => none
            else none
          | [] => none
        else none
      | [] => none
    else none
  | [] => none

/-- Attempt to match the bare pattern `\$([A-Z_][A-Z0-9_]*)` at the head of
the character list. -/
def matchBare (cs : List Char) : Option (String × List Char) :=
  match cs with
  | c1 :: rest1 =>
    if c1 = '$' then
      match rest1 with
      | c2 :: rest2 =>
        if isVarStart c2 then
          let p := takeVarRun rest2
          some (String.mk (c2 :: p.1), p.2)
        else none
      | [] => none
    else none
  | [] => none

/-- The literal token text `${NAME}`, used when the variable is unset. -/
def bracedToken (name : String) : List Char :=
  '$' :: '\x7b' :: (name.data ++ ['\x7d'])

/-- The literal token text `$NAME`, used when the variable is unset. -/
def bareToken (name : String) : List Char :=
  '$' :: name.data

/-- One global-replace pass of the braced pattern, exactly as JavaScript's
`String.prototype.replace` with a global regex: scan left to right, replace
each match using `lookup` (`none` meaning "keep the original token text"),
never rescanning replacement text within the same pass.  Structured with an
explicit fuel argument (one unit per scanning step) so that the function is
structurally recursive; `fuel = cs.length` always suffices because every step
consumes at least one character. -/
def bracedPassF (lookup : String → Option String) : Nat → List Char → List Char
  | 0, cs => cs
  | Nat.succ fuel, cs =>
    match matchBraced cs with
    | some nr =>
      (match lookup nr.1 with
       | some v => v.data
       | none => bracedToken nr.1) ++ bracedPassF lookup fuel nr.2
    | none =>
      match cs with
      | [] => []
      | c :: rest => c :: bracedPassF lookup fuel rest

/-- One global-replace pass of the bare pattern (same scanning discipline). -/
def barePassF (lookup : String → Option String) : Nat → List Char → List Char
  | 0, cs => cs
  | Nat.succ fuel, cs =>
    match matchBare cs with
    | some nr =>
      (match lookup nr.1 with
       | some v => v.data
       | none => bareToken nr.1) ++ barePassF lookup fuel nr.2
    | none =>
      match cs with
      | [] => []
      | c :: rest => c :: barePassF lookup fuel rest

def bracedPass (lookup : String → Option String) (cs : List Char) : List Char :=
  bracedPassF lookup cs.length cs

def barePass (lookup : String → Option String) (cs : List Char) : List Char :=
  barePassF lookup cs.length cs

/-- String expansion as in `expandEnvVars` (`src/utils.ts`): first the braced
pattern is replaced globally, then the bare pattern is replaced globally over
the *result* of the first pass.  `lookup` abstracts the fallback policy
(`??` in the current generation, `||` in the previous one). -/
def expandString (lookup : String → Option String) (s : String) : String :=
  String.mk (barePass lookup (bracedPass lookup s.data))

mutual

/-- `expandEnvVars` from `src/utils.ts`, generic in the lookup policy:
strings get the two replace passes; arrays are mapped element-wise; objects
are rebuilt entry-wise with keys untouched (`Object.entries` / `fromEntries`
preserve key order); `null`, numbers and booleans fall through unchanged
(`null` fails the `value && typeof value === 'object'` guard). -/
def expandVal (lookup : String → Option String) : JValue → JValue
  | .str s => .str (expandString lookup s)
  | .num n => .num n
  | .bool b => .bool b
  | .null => .null
  | .arr xs => .arr (expandValList lookup xs)
  | .obj kvs => .obj (expandValEntries lookup kvs)

def expandValList (lookup : String → Option String) : List JValue → List JValue
  | [] => []
  | x :: xs => expandVal lookup x :: expandValList lookup xs

def expandValEntries (lookup : String → Option String) :
    List (String × JValue) → List (String × JValue)
  | [] => []
  | kv :: kvs => (kv.1, expandVal lookup kv.2) :: expandValEntries lookup kvs

end

/-- Lookup policy of the current generation (`src/utils.ts`):
`process.env[varName] ?? token` — only an *unset* variable falls back to the
literal token; a variable set to the empty string substitutes `""`. -/
def lookupQQ (e : Env) (n : String) : Option String :=
  envGet e n

/-- Lookup policy of the previous generation of `expandEnvVars`:
`process.env[varName] || token` — an unset variable *or* one set to the empty
string (the only falsy string) falls back to the literal token. -/
def lookupOrr (e : Env) (n : String) : Option String :=
  match envGet e n with
  | some v => if v = "" then none else some v
  | none => none

/-- Current-generation `expandEnvVars` (the `??` version). -/
def expandEnvVars (e : Env) (v : JValue) : JValue :=
  expandVal (lookupQQ e) v

/-- Previous-generation `expandEnvVars` (the `||` version). -/
def expandEnvVarsOrr (e : Env) (v : JValue) : JValue :=
  expandVal (lookupOrr e) v

/-- The four deployment targets (`TargetName` in `src/config.ts`). -/
inductive TargetName where
  | claudeDesktop
  | codex
  | gemini
  | claudeCode
  deriving DecidableEq

/-- The target identifier strings, as in the `TargetName` union type. -/
def targetId : TargetName → String
  | .claudeDesktop => "claude-desktop"
  | .codex => "codex"
  | .gemini => "gemini"
  | .claudeCode => "claude-code"

/-- `Object.keys(TARGETS)`: insertion order of the `TARGETS` record literal. -/
def allTargets : List TargetName :=
  [.claudeDesktop, .codex, .gemini, .claudeCode]

/-- The per-target output paths of the `TARGETS` record, relative to the
home directory (`join(homedir(), rel)`). -/
def targetRelPath : TargetName → String
  | .claudeDesktop => "Library/Application Support/Claude/claude_desktop_config.json"
  | .codex => ".codex/config.toml"
  | .gemini => ".gemini/settings.json"
  | .claudeCode => ".claude-code/mcp_settings.json"

/-- The absolute output path for a target, with the home directory as an
explicit parameter. -/
def targetPath (home : String) (t : TargetName) : String :=
  home ++ "/" ++ targetRelPath t

/-- `CLAUDE_CODE_BUILTIN_SERVERS` from `src/config.ts`. -/
def CLAUDE_CODE_BUILTIN_SERVERS : List String :=
  ["filesystem", "git", "github", "brave-search", "memory"]

/-- `filterServersForTarget` from `src/utils.ts`: for `claude-code`, keep only
entries whose key is not in the built-in set; for every other target, return
the input unchanged. -/
def filterServersForTarget (mcpServers : List (String × JValue))
    (target : TargetName) : List (String × JValue) :=
  if target = .claudeCode then
    mcpServers.filter (fun kv => !(CLAUDE_CODE_BUILTIN_SERVERS.contains kv.1))
  else mcpServers

/-- The excluded-server count reported in verbose mode:
`Object.keys(before).length - Object.keys(after).length`. -/
def excludedCount (mcpServers : List (String × JValue)) (target : TargetName) : Nat :=
  mcpServers.length - (filterServersForTarget mcpServers target).length

/-- Lookup of a key in a JavaScript object's entry list (objects produced by
`JSON.parse` have unique keys; the first occurrence is the key's value). -/
def jLookup (kvs : List (String × JValue)) (k : String) : Option JValue :=
  match kvs with
  | [] => none
  | p :: rest => if p.1 = k then some p.2 else jLookup rest k

/-- Is this JSON value a string? (`z.string()` check.) -/
def isStr : JValue → Bool
  | .str _ => true
  | _ => false

/-- Is this JSON value an array of strings? (`z.array(z.string())` check.) -/
def isStrArr : JValue → Bool
  | .arr xs => xs.all isStr
  | _ => false

/-- Is this JSON value an object all of whose values are strings?
(`z.record(z.string(), z.string())` check.) -/
def isStrObj : JValue → Bool
  | .obj kvs => kvs.all (fun kv => isStr kv.2)
  | _ => false

/-- Helper for zod object parsing: a single optional field.  If the key is
absent the output contains nothing for it; if present, the value must pass
the field's check and is copied through unchanged. -/
def zodField (fields : List (String × JValue)) (key : String)
    (check : JValue → Bool) : Option (List (String × JValue)) :=
  match jLookup fields key with
  | none => some []
  | some v => if check v then some [(key, v)] else none

/-- `McpServerSchema.parse` (zod, `src/config.ts`): an object with optional
`command : string`, `args : string[]`, `env : record<string,string>`.
zod object schemas operate in "strip" mode by default: unknown keys are
removed from the output, and the output object's keys follow the schema
shape's declaration order. -/
def parseServerEntry : JValue → Option JValue
  | .obj fields =>
    match zodField fields "command" isStr with
    | none => none
    | some c =>
      match zodField fields "args" isStrArr with
      | none => none
      | some a =>
        match zodField fields "env" isStrObj with
        | none => none
        | some e => some (.obj (c ++ a ++ e))
  | _ => none

/-- Parse every value of the `mcpServers` record through `McpServerSchema`,
preserving the record's keys and their order (`z.record` semantics). -/
def parseServerRecord : List (String × JValue) → Option (List (String × JValue))
  | [] => some []
  | kv :: kvs =>
    match parseServerEntry kv.2 with
    | none => none
    | some v =>
      match parseServerRecord kvs with
      | none => none
      | some rest => some ((kv.1, v) :: rest)

/-- `McpSettingsSchema.parse` (zod, `src/config.ts`): an object with one
optional field `mcpServers : record(string, McpServerSchema)`.  Default
"strip" mode: every unknown top-level key is removed; when `mcpServers` is
absent the output is the empty object. -/
def parseSettings : JValue → Option JValue
  | .obj kvs =>
    match jLookup kvs "mcpServers" with
    | none => some (.obj [])
    | some (.obj entries) =>
      match parseServerRecord entries with
      | none => none
      | some entries' => some (.obj [("mcpServers", .obj entries')])
    | some _ => none
  | _ => none

/-- Four-hex-digit rendering of a code point below 0x10000 (for JSON `\uXXXX`
escapes of control characters). -/
def hexDigit (n : Nat) : Char :=
  if n < 10 then Char.ofNat ('0'.toNat + n) else Char.ofNat ('a'.toNat + (n - 10))

def hex4 (n : Nat) : String :=
  String.mk [hexDigit (n / 4096 % 16), hexDigit (n / 256 % 16),
             hexDigit (n / 16 % 16), hexDigit (n % 16)]

/-- JSON string-character escaping, as `JSON.stringify` performs it:
quote, backslash, the named control escapes, `\uXXXX` for the remaining
control characters, everything else verbatim. -/
def jsonEscapeChar (c : Char) : String :=
  if c = '"' then "\\\""
  else if c = '\\' then "\\\\"
  else if c = '\n' then "\\n"
  else if c = '\t' then "\\t"
  else if c = '\r' then "\\r"
  else if c = '\x08' then "\\b"
  else if c = '\x0c' then "\\f"
  else if c.toNat < 32 then "\\u" ++ hex4 c.toNat
  else String.singleton c

/-- A JSON string literal: quotes around the escaped characters. -/
def jsonQuote (s : String) : String :=
  "\"" ++ String.join (s.data.map jsonEscapeChar) ++ "\""

/-- `indentation(d)`: `d` levels of the 2-space gap of
`JSON.stringify(value, null, 2)`. -/
def jsonIndent (d : Nat) : String :=
  String.mk (List.replicate (2 * d) ' ')

/-- Concatenate rendered items with `",\n"` separators. -/
def joinCommaNl : List String → String
  | [] => ""
  | [x] => x
  | x :: y :: rest => x ++ ",\n" ++ joinCommaNl (y :: rest)

mutual

/-- `JSON.stringify(v, null, 2)` at nesting depth `d`: empty containers
render as `[]` / `\x7b\x7d` on one line; non-empty containers put each
element on its own line, indented one extra gap, with the closer indented at
the container's own depth. -/
def jsonStringifyAt (d : Nat) : JValue → String
  | .str s => jsonQuote s
  | .num n => toString n
  | .bool b => if b then "true" else "false"
  | .null => "null"
  | .arr [] => "[]"
  | .arr (x :: xs) =>
    "[\n" ++ joinCommaNl (jsonArrItems (d + 1) (x :: xs)) ++ "\n" ++ jsonIndent d ++ "]"
  | .obj [] => "\x7b\x7d"
  | .obj (kv :: kvs) =>
    "\x7b\n" ++ joinCommaNl (jsonObjItems (d + 1) (kv :: kvs)) ++ "\n" ++ jsonIndent d ++ "\x7d"

def jsonArrItems (d : Nat) : List JValue → List String
  | [] => []
  | x :: xs => (jsonIndent d ++ jsonStringifyAt d x) :: jsonArrItems d xs

def jsonObjItems (d : Nat) : List (String × JValue) → List String
  | [] => []
  | kv :: kvs =>
    (jsonIndent d ++ jsonQuote kv.1 ++ ": " ++ jsonStringifyAt d kv.2) :: jsonObjItems d kvs

end

/-- `JSON.stringify(v, null, 2)`. -/
def jsonStringify (v : JValue) : String :=
  jsonStringifyAt 0 v

/-- The JavaScript object spread-with-override `\x7b ...obj, k: nv \x7d` on an
entry list: if `k` is already a key, its value is replaced in place (key
order preserved); otherwise the new binding is appended at the end. -/
def setEntry : List (String × JValue) → String → JValue → List (String × JValue)
  | [], k, nv => [(k, nv)]
  | p :: rest, k, nv =>
    if p.1 = k then (k, nv) :: rest else p :: setEntry rest k nv

/-- `\x7b ...mcpData, mcpServers: filteredServers \x7d` as used by the JSON
format strategies.  The spread of a non-object never occurs after schema
validation; it is modelled as producing just the new binding. -/
def objSpreadSet (v : JValue) (k : String) (nv : JValue) : JValue :=
  match v with
  | .obj kvs => .obj (setEntry kvs k nv)
  | _ => .obj [(k, nv)]

/-- The fields of one parsed server entry, as `Object.entries(server)` yields
them.  A value produced by `JSON.parse` and zod validation never contains
JavaScript `undefined`, so the `value !== undefined` filter in
`convertToToml` keeps every field; the model passes the fields through. -/
def serverTomlFields : JValue → List (String × JValue)
  | .obj fields => fields
  | _ => []

/-- The subtables of the `tomlObject` constructed by `convertToToml`: one
sub-object per server name, in input order, each carrying exactly the fields
present on the entry. -/
def convertToTomlSubtables (mcpServers : List (String × JValue)) :
    List (String × JValue) :=
  mcpServers.map (fun kv => (kv.1, .obj (serverTomlFields kv.2)))

/-- The `tomlObject` constructed by `convertToToml` (`src/deploy.ts`): a
single top-level key `mcp_servers` holding the subtables. -/
def convertToTomlTree (mcpServers : List (String × JValue)) : JValue :=
  .obj [("mcp_servers", .obj (convertToTomlSubtables mcpServers))]

/-- Concatenate rendered items with `", "` separators. -/
def joinCommaSp : List String → String
  | [] => ""
  | [x] => x
  | x :: y :: rest => x ++ ", " ++ joinCommaSp (y :: rest)

mutual

/-- A TOML inline value: basic strings (JSON-style escaping is a faithful
subset for the characters occurring here), integers, booleans, arrays, and
inline tables. -/
def tomlInline : JValue → String
  | .str s => jsonQuote s
  | .num n => toString n
  | .bool b => if b then "true" else "false"
  | .null => ""
  | .arr xs => "[ " ++ joinCommaSp (tomlInlineList xs) ++ " ]"
  | .obj kvs => "\x7b " ++ joinCommaSp (tomlInlineEntries kvs) ++ " \x7d"

def tomlInlineList : List JValue → List String
  | [] => []
  | x :: xs => tomlInline x :: tomlInlineList xs

def tomlInlineEntries : List (String × JValue) → List String
  | [] => []
  | kv :: kvs => (kv.1 ++ " = " ++ tomlInline kv.2) :: tomlInlineEntries kvs

end

/-- `key = value` lines of one server subtable. -/
def tomlFieldLines (fields : List (String × JValue)) : String :=
  String.join (fields.map (fun kv => kv.1 ++ " = " ++ tomlInline kv.2 ++ "\n"))

/-- Serialization of the two-level table tree that `convertToToml` builds
(`TOML.stringify` of the third-party `@iarna/toml` package; modelled here for
exactly the shape the encoder constructs: one `[mcp_servers.<name>]` header
per server followed by its field lines). -/
def tomlStringify (v : JValue) : String :=
  match v with
  | .obj [(top, .obj tables)] =>
    String.join (tables.map (fun kv =>
      "[" ++ top ++ "." ++ kv.1 ++ "]\n" ++
      (match kv.2 with
       | .obj fields => tomlFieldLines fields
       | _ => "")))
  | _ => ""

/-- `convertToToml` from `src/deploy.ts`: build the `mcp_servers` table tree
from the server map and stringify it. -/
def convertToToml (mcpServers : List (String × JValue)) : String :=
  tomlStringify (convertToTomlTree mcpServers)

/-- `FORMAT_STRATEGIES` from `src/deploy.ts`: the three JSON targets
serialize the full document with `mcpServers` replaced by the filtered map,
2-space indented; `codex` converts only the filtered server map to TOML
(ignoring the document). -/
def FORMAT_STRATEGIES (t : TargetName) (mcpData : JValue)
    (filteredServers : List (String × JValue)) : String :=
  match t with
  | .codex => convertToToml filteredServers
  | _ => jsonStringify (objSpreadSet mcpData "mcpServers" (.obj filteredServers))

/-- State of the canonical settings file: missing, present but not valid
JSON, or present with the given parsed JSON value (reading and `JSON.parse`
are collapsed into the parse result, since file I/O and the JSON grammar are
outside the repository's code). -/
inductive FileState where
  | missing
  | unparsable
  | content : JValue → FileState

/-- The world a deployment runs in: the process environment, the canonical
settings file, and a writability oracle saying whether directory creation
plus `writeFile` succeed for a target's path. -/
structure DeployEnv where
  env : Env
  settings : FileState
  writable : TargetName → Bool

/-- `loadMcpSettings` from `src/deploy.ts`: missing file is an error; content
is parsed and validated through `McpSettingsSchema`, any parse or validation
failure being wrapped into a "Failed to load" error. -/
def loadMcpSettings (fs : FileState) : Except String JValue :=
  match fs with
  | .missing => .error "MCP settings not found"
  | .unparsable => .error "Failed to load MCP settings: parse error"
  | .content v =>
    match parseSettings v with
    | some parsed => .ok parsed
    | none => .error "Failed to load MCP settings: validation error"

/-- `expandedMcpData.mcpServers || \x7b\x7d`: the entry list of the document's
`mcpServers` field, or the empty record when the field is absent. -/
def serversOf (v : JValue) : List (String × JValue) :=
  match v with
  | .obj kvs =>
    match jLookup kvs "mcpServers" with
    | some (.obj entries) => entries
    | _ => []
  | _ => []

/-- Outcome of one `deployToTarget` call: either the target file was written
(path and text), or the process was terminated with exit code 1 after the
catch block logged the given message (`process.exit(1)`). -/
inductive DeployOutcome where
  | written : String → String → DeployOutcome
  | exit1 : String → DeployOutcome

/-- The per-target failure message logged by the catch block:
`Failed to deploy to $\x7btarget\x7d: $\x7bmessage\x7d`. -/
def deployFailMsg (t : TargetName) (msg : String) : String :=
  "Failed to deploy to " ++ targetId t ++ ": " ++ msg

/-- `deployToTarget` from `src/deploy.ts`.  All four `TargetName` values are
keys of `TARGETS`, so the unknown-target throw cannot fire.  The pipeline is
load → expand → filter → ensure directory → encode → write; any failure is
caught, logged with the target name, and ends in `process.exit(1)`. -/
def deployToTarget (E : DeployEnv) (home : String) (t : TargetName) : DeployOutcome :=
  match loadMcpSettings E.settings with
  | .error msg => .exit1 (deployFailMsg t msg)
  | .ok mcpData =>
    let expandedMcpData := expandEnvVars E.env mcpData
    let filteredMcpServers := filterServersForTarget (serversOf expandedMcpData) t
    if E.writable t then
      .written (targetPath home t) (FORMAT_STRATEGIES t expandedMcpData filteredMcpServers)
    else
      .exit1 (deployFailMsg t "write failed")

/-- `deployAll` execution.  The source fans the four `deployToTarget` calls
out with `Promise.all`, but a failing target's catch block calls
`process.exit(1)`, which terminates the whole Node process at once; any
deployment that has not completed by then is abandoned.  The model fixes the
admissible schedule in which deployments complete in `Object.keys(TARGETS)`
order (the behaviour of the repository's earlier sequential `deployAll`, and
one possible interleaving of the concurrent one): targets are processed in
order, and the first `exit1` stops the run, leaving later targets unwritten. -/
def deployAllFrom (E : DeployEnv) (home : String) :
    List TargetName → List (String × String) × Option String
  | [] => ([], none)
  | t :: ts =>
    match deployToTarget E home t with
    | .written p c =>
      let r := deployAllFrom E home ts
      ((p, c) :: r.1, r.2)
    | .exit1 msg => ([], some msg)

/-- `deployAll`: run the pipeline over the four fixed targets.  Returns the
list of `(path, text)` files actually written and, when the process was
terminated, the failure message. -/
def deployAll (E : DeployEnv) (home : String) :
    List (String × String) × Option String :=
  deployAllFrom E home allTargets

/-- Modelled from the spec's words (section 4.5 and the claim): the content a
single-target deployment should write is obtained by loading the canonical
document, expanding environment variables over the whole document, filtering
the server map for the target, and encoding with the target's encoder, in
that order.  Used as the specification side of the refinement claim. -/
def specPipelineContent (e : Env) (loaded : JValue) (t : TargetName) : String :=
  let expanded := expandEnvVars e loaded
  let filtered := filterServersForTarget (serversOf expanded) t
  FORMAT_STRATEGIES t expanded filtered

/-- `filter(expand(D), T)` at document level: the `finalMcpData` a JSON
deployment serializes — the expanded document with its `mcpServers` field
replaced by the filtered map. -/
def pipeDoc (e : Env) (t : TargetName) (d : JValue) : JValue :=
  let x := expandEnvVars e d
  objSpreadSet x "mcpServers" (.obj (filterServersForTarget (serversOf x) t))

/-- No `$` character occurs: neither replace pattern can match, and no
substitution can create a match. -/
def noDollar (cs : List Char) : Bool :=
  cs.all (fun c => c != '$')

mutual

/-- Every string in value position of the tree is `$`-free (object keys are
never rewritten by `expandEnvVars`, so they are unconstrained). -/
def jNoDollar : JValue → Bool
  | .str s => noDollar s.data
  | .num _ => true
  | .bool _ => true
  | .null => true
  | .arr xs => jNoDollarList xs
  | .obj kvs => jNoDollarEntries kvs

def jNoDollarList : List JValue → Bool
  | [] => true
  | x :: xs => jNoDollar x && jNoDollarList xs

def jNoDollarEntries : List (String × JValue) → Bool
  | [] => true
  | kv :: kvs => jNoDollar kv.2 && jNoDollarEntries kvs

end

/-- Key lookup directly on a JSON value (`none` on non-objects). -/
def jLookupJ (v : JValue) (k : String) : Option JValue :=
  match v with
  | .obj kvs => jLookup kvs k
  | _ => none

/-! ### Helper lemmas -/

theorem matchBraced_none_of_ne (c : Char) (rest : List Char) (h : c ≠ '$') :
    matchBraced (c :: rest) = none := by
  simp [matchBraced, h]

theorem matchBare_none_of_ne (c : Char) (rest : List Char) (h : c ≠ '$') :
    matchBare (c :: rest) = none := by
  simp [matchBare, h]

theorem bracedPassF_of_noDollar (l : String → Option String) :
    ∀ (fuel : Nat) (cs : List Char), noDollar cs = true → bracedPassF l fuel cs = cs := by
  intro fuel
  induction fuel with
  | zero => intro cs _; rfl
  | succ fuel ih =>
    intro cs h
    match cs with
    | [] => rfl
    | c :: rest =>
      have hc : (c != '$') = true ∧ noDollar rest = true := by
        simpa [noDollar] using h
      have hcn : c ≠ '$' := by simpa using hc.1
      simp only [bracedPassF, matchBraced_none_of_ne c rest hcn]
      exact congrArg (c :: ·) (ih rest hc.2)

theorem barePassF_of_noDollar (l : String → Option String) :
    ∀ (fuel : Nat) (cs : List Char), noDollar cs = true → barePassF l fuel cs = cs := by
  intro fuel
  induction fuel with
  | zero => intro cs _; rfl
  | succ fuel ih =>
    intro cs h
    match cs with
    | [] => rfl
    | c :: rest =>
      have hc : (c != '$') = true ∧ noDollar rest = true := by
        simpa [noDollar] using h
      have hcn : c ≠ '$' := by simpa using hc.1
      simp only [barePassF, matchBare_none_of_ne c rest hcn]
      exact congrArg (c :: ·) (ih rest hc.2)

theorem expandString_of_noDollar (l : String → Option String) (s : String)
    (h : noDollar s.data = true) : expandString l s = s := by
  unfold expandString bracedPass barePass
  rw [bracedPassF_of_noDollar l s.data.length s.data h,
      barePassF_of_noDollar l s.data.length s.data h]

theorem expandValList_eq_map (l : String → Option String) (xs : List JValue) :
    expandValList l xs = xs.map (expandVal l) := by
  induction xs with
  | nil => rfl
  | cons x xs ih => simp [expandValList, ih]

theorem expandValEntries_eq_map (l : String → Option String)
    (kvs : List (String × JValue)) :
    expandValEntries l kvs = kvs.map (fun kv => (kv.1, expandVal l kv.2)) := by
  induction kvs with
  | nil => rfl
  | cons kv kvs ih => simp [expandValEntries, ih]

mutual

theorem expandVal_of_noDollar (l : String → Option String) :
    ∀ v : JValue, jNoDollar v = true → expandVal l v = v
  | .str s, h => congrArg JValue.str (expandString_of_noDollar l s (by simpa [jNoDollar] using h))
  | .num _, _ => rfl
  | .bool _, _ => rfl
  | .null, _ => rfl
  | .arr xs, h =>
    congrArg JValue.arr (expandValList_of_noDollar l xs (by simpa [jNoDollar] using h))
  | .obj kvs, h =>
    congrArg JValue.obj (expandValEntries_of_noDollar l kvs (by simpa [jNoDollar] using h))

theorem expandValList_of_noDollar (l : String → Option String) :
    ∀ xs : List JValue, jNoDollarList xs = true → expandValList l xs = xs
  | [], _ => rfl
  | x :: xs, h => by
    have h2 : jNoDollar x = true ∧ jNoDollarList xs = true := by
      simpa [jNoDollarList] using h
    simp only [expandValList]
    rw [expandVal_of_noDollar l x h2.1, expandValList_of_noDollar l xs h2.2]

theorem expandValEntries_of_noDollar (l : String → Option String) :
    ∀ kvs : List (String × JValue), jNoDollarEntries kvs = true →
      expandValEntries l kvs = kvs
  | [], _ => rfl
  | kv :: kvs, h => by
    have h2 : jNoDollar kv.2 = true ∧ jNoDollarEntries kvs = true := by
      simpa [jNoDollarEntries] using h
    simp only [expandValEntries]
    rw [expandVal_of_noDollar l kv.2 h2.1, expandValEntries_of_noDollar l kvs h2.2]

end

theorem envGet_mem (e : Env) (n v : String) (h : envGet e n = some v) :
    (n, v) ∈ e := by
  induction e with
  | nil => simp [envGet] at h
  | cons p rest ih =>
    obtain ⟨p1, p2⟩ := p
    by_cases hp : p1 = n
    · subst hp
      simp only [envGet, if_pos] at h
      cases h
      exact List.Mem.head _
    · simp only [envGet, hp, if_neg, not_false_iff] at h
      exact .tail _ (ih h)

theorem jLookup_mem (kvs : List (String × JValue)) (k : String) (v : JValue)
    (h : jLookup kvs k = some v) : (k, v) ∈ kvs := by
  induction kvs with
  | nil => simp [jLookup] at h
  | cons p rest ih =>
    obtain ⟨p1, p2⟩ := p
    by_cases hp : p1 = k
    · subst hp
      simp only [jLookup, if_pos] at h
      cases h
      exact List.Mem.head _
    · simp only [jLookup, hp, if_neg, not_false_iff] at h
      exact .tail _ (ih h)

theorem jLookup_setEntry_self (kvs : List (String × JValue)) (k : String)
    (nv : JValue) : jLookup (setEntry kvs k nv) k = some nv := by
  induction kvs with
  | nil => simp [setEntry, jLookup]
  | cons p rest ih =>
    by_cases hp : p.1 = k
    · simp [setEntry, hp, jLookup]
    · simp [setEntry, hp, jLookup, ih]

theorem setEntry_idem (kvs : List (String × JValue)) (k : String) (nv : JValue) :
    setEntry (setEntry kvs k nv) k nv = setEntry kvs k nv := by
  induction kvs with
  | nil => simp [setEntry]
  | cons p rest ih =>
    by_cases hp : p.1 = k
    · simp [setEntry, hp]
    · simp [setEntry, hp, ih]

theorem objSpreadSet_idem (v : JValue) (k : String) (nv : JValue) :
    objSpreadSet (objSpreadSet v k nv) k nv = objSpreadSet v k nv := by
  match v with
  | .obj kvs => simp [objSpreadSet, setEntry_idem]
  | .str _ | .num _ | .bool _ | .null | .arr _ => simp [objSpreadSet, setEntry]

theorem serversOf_objSpreadSet (v : JValue) (f : List (String × JValue)) :
    serversOf (objSpreadSet v "mcpServers" (.obj f)) = f := by
  match v with
  | .obj kvs => simp [objSpreadSet, serversOf, jLookup_setEntry_self]
  | .str _ | .num _ | .bool _ | .null | .arr _ => simp [objSpreadSet, serversOf, jLookup]

theorem jNoDollarEntries_all (kvs : List (String × JValue)) :
    jNoDollarEntries kvs = kvs.all (fun kv => jNoDollar kv.2) := by
  induction kvs with
  | nil => rfl
  | cons kv kvs ih => simp [jNoDollarEntries, ih]

theorem jNoDollarEntries_filter (kvs : List (String × JValue))
    (p : String × JValue → Bool) (h : jNoDollarEntries kvs = true) :
    jNoDollarEntries (kvs.filter p) = true := by
  rw [jNoDollarEntries_all] at h ⊢
  rw [List.all_eq_true] at h ⊢
  intro kv hkv
  exact h kv (List.mem_of_mem_filter hkv)

theorem jNoDollar_serversOf (v : JValue) (h : jNoDollar v = true) :
    jNoDollarEntries (serversOf v) = true := by
  match v with
  | .str _ | .num _ | .bool _ | .null | .arr _ => rfl
  | .obj kvs =>
    simp only [serversOf]
    match hl : jLookup kvs "mcpServers" with
    | none => rfl
    | some (.str _) | some (.num _) | some (.bool _) | some .null | some (.arr _) => rfl
    | some (.obj entries) =>
      have hmem := jLookup_mem kvs "mcpServers" (.obj entries) hl
      have hall : jNoDollarEntries kvs = true := by simpa [jNoDollar] using h
      rw [jNoDollarEntries_all, List.all_eq_true] at hall
      have := hall _ hmem
      simpa [jNoDollar] using this

theorem jNoDollarEntries_setEntry (kvs : List (String × JValue)) (k : String)
    (nv : JValue) (h : jNoDollarEntries kvs = true) (hnv : jNoDollar nv = true) :
    jNoDollarEntries (setEntry kvs k nv) = true := by
  induction kvs with
  | nil => simpa [setEntry, jNoDollarEntries] using hnv
  | cons p rest ih =>
    have h2 : jNoDollar p.2 = true ∧ jNoDollarEntries rest = true := by
      simpa [jNoDollarEntries] using h
    by_cases hp : p.1 = k
    · simp [setEntry, hp, jNoDollarEntries, hnv, h2.2]
    · simp [setEntry, hp, jNoDollarEntries, h2.1, ih h2.2]

theorem jNoDollar_objSpreadSet (v : JValue) (k : String) (nv : JValue)
    (h : jNoDollar v = true) (hnv : jNoDollar nv = true) :
    jNoDollar (objSpreadSet v k nv) = true := by
  match v with
  | .obj kvs =>
    have hall : jNoDollarEntries kvs = true := by simpa [jNoDollar] using h
    simpa [objSpreadSet, jNoDollar] using jNoDollarEntries_setEntry kvs k nv hall hnv
  | .str _ | .num _ | .bool _ | .null | .arr _ =>
    simpa [objSpreadSet, jNoDollar, jNoDollarEntries] using hnv

theorem filter_idem {α : Type} (p : α → Bool) (l : List α) :
    (l.filter p).filter p = l.filter p := by
  induction l with
  | nil => rfl
  | cons x xs ih =>
    by_cases hx : p x = true
    · simp [List.filter, hx, ih]
    · simp only [List.filter, hx]
      exact ih

theorem filterServersForTarget_idem (entries : List (String × JValue))
    (t : TargetName) :
    filterServersForTarget (filterServersForTarget entries t) t
      = filterServersForTarget entries t := by
  by_cases ht : t = .claudeCode
  · simp [filterServersForTarget, ht, filter_idem]
  · simp [filterServersForTarget, ht]

theorem bracedPassF_succ (l : String → Option String) (fuel : Nat) (cs : List Char) :
    bracedPassF l (fuel + 1) cs =
      match matchBraced cs with
      | some nr =>
        (match l nr.1 with
         | some v => v.data
         | none => bracedToken nr.1) ++ bracedPassF l fuel nr.2
      | none =>
        match cs with
        | [] => []
        | c :: rest => c :: bracedPassF l fuel rest := rfl

theorem bracedPassF_step_some (l : String → Option String) (fuel : Nat)
    (cs : List Char) (nr : String × List Char) (h : matchBraced cs = some nr) :
    bracedPassF l (fuel + 1) cs =
      (match l nr.1 with
       | some v => v.data
       | none => bracedToken nr.1) ++ bracedPassF l fuel nr.2 := by
  rw [bracedPassF_succ, h]

theorem barePassF_succ (l : String → Option String) (fuel : Nat) (cs : List Char) :
    barePassF l (fuel + 1) cs =
      match matchBare cs with
      | some nr =>
        (match l nr.1 with
         | some v => v.data
         | none => bareToken nr.1) ++ barePassF l fuel nr.2
      | none =>
        match cs with
        | [] => []
        | c :: rest => c :: barePassF l fuel rest := rfl

theorem barePassF_step_none_cons (l : String → Option String) (fuel : Nat)
    (c : Char) (rest : List Char) (h : matchBare (c :: rest) = none) :
    barePassF l (fuel + 1) (c :: rest) = c :: barePassF l fuel rest := by
  rw [barePassF_succ, h]

theorem string_mk_append (a : List Char) (b : String) :
    String.mk (a ++ b.data) = String.mk a ++ b := rfl

/-- With `FOO` unset, the string `$\x7bFOO\x7d` expands to itself: the braced
pass keeps the literal token and the bare pass cannot match it (`$` is
followed by an opening brace, which is not a name character). -/
theorem expandString_FOO_unset (l : String → Option String) (h : l "FOO" = none) :
    expandString l "$\x7bFOO\x7d" = "$\x7bFOO\x7d" := by
  have hm : matchBraced ("$\x7bFOO\x7d".data) = some ("FOO", ([] : List Char)) := rfl
  unfold expandString
  show String.mk (barePass l (bracedPassF l 6 ("$\x7bFOO\x7d".data))) = _
  rw [show (6 : Nat) = 5 + 1 from rfl, bracedPassF_step_some l 5 _ _ hm, h]
  show String.mk (barePassF l 6 ("$\x7bFOO\x7d".data ++ [])) = _
  rw [List.append_nil, show (6 : Nat) = 5 + 1 from rfl,
      barePassF_step_none_cons l 5 '$' ("\x7bFOO\x7d".data) rfl,
      barePassF_of_noDollar l 5 ("\x7bFOO\x7d".data) (by decide)]

/-- With `FOO` set to a `$`-free value `v`, the string `$\x7bFOO\x7d` expands
to exactly `v`. -/
theorem expandString_FOO_set (l : String → Option String) (v : String)
    (h : l "FOO" = some v) (hv : noDollar v.data = true) :
    expandString l "$\x7bFOO\x7d" = v := by
  have hm : matchBraced ("$\x7bFOO\x7d".data) = some ("FOO", ([] : List Char)) := rfl
  unfold expandString
  show String.mk (barePass l (bracedPassF l 6 ("$\x7bFOO\x7d".data))) = v
  rw [show (6 : Nat) = 5 + 1 from rfl, bracedPassF_step_some l 5 _ _ hm, h]
  show String.mk (barePass l (v.data ++ [])) = v
  rw [List.append_nil]
  unfold barePass
  rw [barePassF_of_noDollar l v.data.length v.data hv]

/-- With `FOO` unset, `$\x7bFOO\x7dBAR` is returned completely unchanged, for
every environment: the literal braced token is kept and the bare pattern
cannot bite into it or into `BAR`. -/
theorem expandString_FOOBAR_unset (l : String → Option String)
    (h : l "FOO" = none) :
    expandString l "$\x7bFOO\x7dBAR" = "$\x7bFOO\x7dBAR" := by
  have hm : matchBraced ("$\x7bFOO\x7dBAR".data)
      = some ("FOO", ('B' :: 'A' :: 'R' :: [])) := rfl
  unfold expandString
  show String.mk (barePass l (bracedPassF l 9 ("$\x7bFOO\x7dBAR".data))) = _
  rw [show (9 : Nat) = 8 + 1 from rfl, bracedPassF_step_some l 8 _ _ hm, h,
      bracedPassF_of_noDollar l 8 ('B' :: 'A' :: 'R' :: []) (by decide)]
  show String.mk (barePassF l 9 ("$\x7bFOO\x7dBAR".data)) = _
  rw [show (9 : Nat) = 8 + 1 from rfl,
      barePassF_step_none_cons l 8 '$' ("\x7bFOO\x7dBAR".data) rfl,
      barePassF_of_noDollar l 8 ("\x7bFOO\x7dBAR".data) (by decide)]

/-- With `FOO` set to a `$`-free value `v`, `$\x7bFOO\x7dBAR` expands to
`v ++ "BAR"`: the braced match consumes its closing brace, so the bare
pattern never sees a partial token `$FOO` glued to `BAR`. -/
theorem expandString_FOOBAR_set (l : String → Option String) (v : String)
    (h : l "FOO" = some v) (hv : noDollar v.data = true) :
    expandString l "$\x7bFOO\x7dBAR" = v ++ "BAR" := by
  have hm : matchBraced ("$\x7bFOO\x7dBAR".data)
      = some ("FOO", ('B' :: 'A' :: 'R' :: [])) := rfl
  unfold expandString
  show String.mk (barePass l (bracedPassF l 9 ("$\x7bFOO\x7dBAR".data))) = _
  rw [show (9 : Nat) = 8 + 1 from rfl, bracedPassF_step_some l 8 _ _ hm, h,
      bracedPassF_of_noDollar l 8 ('B' :: 'A' :: 'R' :: []) (by decide)]
  unfold barePass
  have hnd : noDollar (v.data ++ ('B' :: 'A' :: 'R' :: [])) = true := by
    simp only [noDollar, List.all_append] at hv ⊢
    simp [hv]
  rw [barePassF_of_noDollar l _ _ hnd]
  exact string_mk_append v.data "BAR"

theorem jLookup_expandValEntries (l : String → Option String)
    (kvs : List (String × JValue)) (k : String) :
    jLookup (expandValEntries l kvs) k = (jLookup kvs k).map (expandVal l) := by
  induction kvs with
  | nil => rfl
  | cons kv kvs ih =>
    by_cases hp : kv.1 = k
    · simp [expandValEntries, jLookup, hp]
    · simp [expandValEntries, jLookup, hp, ih]

theorem filterServersForTarget_nil (t : TargetName) :
    filterServersForTarget [] t = [] := by
  by_cases ht : t = .claudeCode <;> simp [filterServersForTarget, ht]

/-- If the parsed document has no `mcpServers` key, neither does the expanded
document, so the server record defaults to the empty one. -/
theorem serversOf_expand_of_none (l : String → Option String) (v : JValue)
    (h : jLookupJ v "mcpServers" = none) :
    serversOf (expandVal l v) = [] := by
  match v with
  | .str _ | .num _ | .bool _ | .null | .arr _ => rfl
  | .obj kvs =>
    have h' : jLookup kvs "mcpServers" = none := by simpa [jLookupJ] using h
    simp [expandVal, serversOf, jLookup_expandValEntries, h']

theorem zodField_mem (fields : List (String × JValue)) (k : String)
    (check : JValue → Bool) (out : List (String × JValue))
    (h : zodField fields k check = some out) :
    ∀ p ∈ out, p.1 = k ∧ jLookup fields k = some p.2 := by
  intro p hp
  unfold zodField at h
  split at h
  · cases h
    simp at hp
  · rename_i v hl
    split at h
    · cases h
      simp at hp
      rw [hp]
      exact ⟨rfl, hl⟩
    · cases h

theorem parseServerRecord_keys (entries entries' : List (String × JValue))
    (h : parseServerRecord entries = some entries') :
    entries'.map Prod.fst = entries.map Prod.fst := by
  induction entries generalizing entries' with
  | nil =>
    cases h
    rfl
  | cons kv kvs ih =>
    unfold parseServerRecord at h
    split at h
    · cases h
    · split at h
      · cases h
      · rename_i rest hr
        cases h
        simp [ih rest hr]

/-! ### Claim C4 — environment expansion semantics -/

/-- C4, counterexample.  The claim states that each `$\x7bNAME\x7d` occurrence is
replaced with the environment's value for `NAME` when set.  With
`FOO = "$BAR"` and `BAR = "x"`, the code returns `"x"`, not the environment
value `"$BAR"` of `FOO`: the bare-form pass runs over the braced-form pass's
output and re-substitutes the value just inserted.  This refutes the claim
as universally stated. -/
theorem C4_counterexample :
    envGet [("FOO", "$BAR"), ("BAR", "x")] "FOO" = some "$BAR"
    ∧ expandEnvVars [("FOO", "$BAR"), ("BAR", "x")] (.str "$\x7bFOO\x7d") = .str "x"
    ∧ expandEnvVars [("FOO", "$BAR"), ("BAR", "x")] (.str "$\x7bFOO\x7d") ≠ .str "$BAR" := by
  refine ⟨rfl, rfl, ?_⟩
  intro h
  injection h with h'
  exact absurd h' (by decide)

/-- C4, amended.  `expandEnvVars` replaces tokens as the claim describes
*provided the substituted value is itself `$`-free* (otherwise the bare-form
pass, which runs over the braced-form pass's output, expands it further):
a string containing no `$` is returned unchanged under every environment;
`$\x7bFOO\x7d` with `FOO` unset is returned unchanged; with `FOO` set to a
`$`-free value it becomes exactly that value; non-string scalars pass
through unchanged; arrays and objects are expanded element-wise, preserving
structure and key order. -/
theorem C4_expansion_amended :
    (∀ (e : Env) (s : String), noDollar s.data = true →
        expandEnvVars e (.str s) = .str s)
    ∧ (∀ e : Env, envGet e "FOO" = none →
        expandEnvVars e (.str "$\x7bFOO\x7d") = .str "$\x7bFOO\x7d")
    ∧ (∀ (e : Env) (v : String), envGet e "FOO" = some v → noDollar v.data = true →
        expandEnvVars e (.str "$\x7bFOO\x7d") = .str v)
    ∧ (∀ (e : Env) (n : Int), expandEnvVars e (.num n) = .num n)
    ∧ (∀ (e : Env) (b : Bool), expandEnvVars e (.bool b) = .bool b)
    ∧ (∀ e : Env, expandEnvVars e .null = .null)
    ∧ (∀ (e : Env) (xs : List JValue),
        expandEnvVars e (.arr xs) = .arr (xs.map (expandEnvVars e)))
    ∧ (∀ (e : Env) (kvs : List (String × JValue)),
        expandEnvVars e (.obj kvs)
          = .obj (kvs.map (fun kv => (kv.1, expandEnvVars e kv.2)))) := by
  refine ⟨?_, ?_, ?_, ?_, ?_, ?_, ?_, ?_⟩
  · intro e s h
    exact congrArg JValue.str (expandString_of_noDollar (lookupQQ e) s h)
  · intro e h
    exact congrArg JValue.str (expandString_FOO_unset (lookupQQ e) h)
  · intro e v h hv
    exact congrArg JValue.str (expandString_FOO_set (lookupQQ e) v h hv)
  · intro e n; rfl
  · intro e b; rfl
  · intro e; rfl
  · intro e xs
    exact congrArg JValue.arr (expandValList_eq_map (lookupQQ e) xs)
  · intro e kvs
    exact congrArg JValue.obj (expandValEntries_eq_map (lookupQQ e) kvs)

/-- C4, witness: the amended theorem applied at concrete inputs. -/
theorem C4_witness :
    expandEnvVars [] (.str "plain text") = .str "plain text"
    ∧ expandEnvVars [] (.str "$\x7bFOO\x7d") = .str "$\x7bFOO\x7d"
    ∧ expandEnvVars [("FOO", "bar")] (.str "$\x7bFOO\x7d") = .str "bar" :=
  ⟨C4_expansion_amended.1 [] "plain text" (by decide),
   C4_expansion_amended.2.1 [] rfl,
   C4_expansion_amended.2.2.1 [("FOO", "bar")] "bar" rfl (by decide)⟩

/-! ### Claim C5 — independence of the braced and bare patterns -/

/-- C5, counterexample.  The claim states that no text produced by
substituting one pattern is consumed or re-substituted by the other.  With
`FOO = "A"` and `A = "z"`, the input `$$\x7bFOO\x7d`: the braced pass turns it
into `$A` (the `A` is substituted text), and the bare pass then consumes
`$A` and substitutes again, giving `z`.  Under the claim the final result
would have to be `$A`. -/
theorem C5_counterexample :
    bracedPass (lookupQQ [("FOO", "A"), ("A", "z")]) ("$$\x7bFOO\x7d".data) = "$A".data
    ∧ barePass (lookupQQ [("FOO", "A"), ("A", "z")]) ("$A".data) = "z".data
    ∧ expandEnvVars [("FOO", "A"), ("A", "z")] (.str "$$\x7bFOO\x7d") = .str "z"
    ∧ ("z" : String) ≠ "$A" :=
  ⟨rfl, rfl, rfl, by decide⟩

/-- C5, amended.  The braced form is handled before the bare form, so
`$\x7bFOO\x7dBAR` is never corrupted by a bare-form partial match: with `FOO`
unset it is returned unchanged under every environment, and with `FOO` set
to a `$`-free value `v` it becomes `v ++ "BAR"`.  The two passes are not
independent in general, however: text produced by a braced substitution can
be consumed and re-substituted by the subsequent bare pass (see the
counterexample). -/
theorem C5_braced_first_amended :
    (∀ e : Env, envGet e "FOO" = none →
        expandEnvVars e (.str "$\x7bFOO\x7dBAR") = .str "$\x7bFOO\x7dBAR")
    ∧ (∀ (e : Env) (v : String), envGet e "FOO" = some v → noDollar v.data = true →
        expandEnvVars e (.str "$\x7bFOO\x7dBAR") = .str (v ++ "BAR")) := by
  constructor
  · intro e h
    exact congrArg JValue.str (expandString_FOOBAR_unset (lookupQQ e) h)
  · intro e v h hv
    exact congrArg JValue.str (expandString_FOOBAR_set (lookupQQ e) v h hv)

/-- C5, witness: the amended theorem applied at concrete inputs. -/
theorem C5_witness :
    expandEnvVars [] (.str "$\x7bFOO\x7dBAR") = .str "$\x7bFOO\x7dBAR"
    ∧ expandEnvVars [("FOO", "v")] (.str "$\x7bFOO\x7dBAR") = .str ("v" ++ "BAR") :=
  ⟨C5_braced_first_amended.1 [] rfl,
   C5_braced_first_amended.2 [("FOO", "v")] "v" rfl (by decide)⟩

/-! ### Claim C10 — equivalence of the two `expandEnvVars` generations -/

/-- C10, counterexample.  The claim states the `||` and `??` generations
agree on every environment, including variables set to the empty string.
With `FOO = ""` they differ on `$\x7bFOO\x7d`: the `||` version treats `""` as
falsy and keeps the literal token, the `??` version substitutes `""`. -/
theorem C10_counterexample :
    expandString (lookupOrr [("FOO", "")]) "$\x7bFOO\x7d" = "$\x7bFOO\x7d"
    ∧ expandString (lookupQQ [("FOO", "")]) "$\x7bFOO\x7d" = ""
    ∧ expandEnvVarsOrr [("FOO", "")] (.str "$\x7bFOO\x7d")
        ≠ expandEnvVars [("FOO", "")] (.str "$\x7bFOO\x7d") := by
  refine ⟨rfl, rfl, ?_⟩
  intro h
  injection h with h'
  exact absurd h' (by decide)

/-- C10, amended.  The two generations of `expandEnvVars` compute the same
function on every environment in which no variable is bound to the empty
string; they differ exactly on empty-string values (see the
counterexample). -/
theorem C10_generations_agree_amended (e : Env) (h : ∀ p ∈ e, p.2 ≠ "") :
    ∀ v : JValue, expandEnvVarsOrr e v = expandEnvVars e v := by
  intro v
  have hl : lookupOrr e = lookupQQ e := by
    funext n
    cases hg : envGet e n with
    | none => simp [lookupOrr, lookupQQ, hg]
    | some w =>
      have hw := h _ (envGet_mem e n w hg)
      simp only at hw
      simp [lookupOrr, lookupQQ, hg, hw]
  unfold expandEnvVarsOrr expandEnvVars
  rw [hl]

/-- C10, witness: the amended theorem applied at a concrete environment. -/
theorem C10_witness :
    expandEnvVarsOrr [("FOO", "bar")] (.str "$\x7bFOO\x7d")
      = expandEnvVars [("FOO", "bar")] (.str "$\x7bFOO\x7d") :=
  C10_generations_agree_amended [("FOO", "bar")] (by decide) _

/-! ### Claim C7 — per-target server filtering -/

/-- C7 (confirmed).  For `claude-code` the filter keeps exactly the entries
whose name is not in the built-in exclusion set, values unchanged; for every
other target it is the identity; and on `\x7bfilesystem, custom-tool\x7d` it
keeps only `custom-tool` and reports exactly 1 excluded entry. -/
theorem C7_target_filter :
    (∀ (entries : List (String × JValue)) (k : String) (v : JValue),
        (k, v) ∈ filterServersForTarget entries .claudeCode
          ↔ (k, v) ∈ entries ∧ k ∉ CLAUDE_CODE_BUILTIN_SERVERS)
    ∧ (∀ t : TargetName, t ≠ .claudeCode →
        ∀ entries : List (String × JValue), filterServersForTarget entries t = entries)
    ∧ filterServersForTarget
        [("filesystem", .obj []), ("custom-tool", .obj [("command", .str "run")])]
        .claudeCode
      = [("custom-tool", .obj [("command", .str "run")])]
    ∧ excludedCount
        [("filesystem", .obj []), ("custom-tool", .obj [("command", .str "run")])]
        .claudeCode = 1 := by
  refine ⟨?_, ?_, rfl, rfl⟩
  · intro entries k v
    simp [filterServersForTarget, List.mem_filter, List.contains]
  · intro t ht entries
    simp [filterServersForTarget, ht]

/-- C7, witness: the identity branch of the theorem applied at a concrete
non-`claude-code` target. -/
theorem C7_witness :
    filterServersForTarget [("filesystem", JValue.obj [])] .gemini
      = [("filesystem", JValue.obj [])] :=
  C7_target_filter.2.1 .gemini (by decide) [("filesystem", JValue.obj [])]

/-! ### Claim C8 — the codex TOML encoder -/

/-- C8 (confirmed, with `TOML.stringify` of the third-party `@iarna/toml`
package modelled by `tomlStringify`).  The codex strategy encodes only the
filtered server map — its output does not depend on the document at all —
as a single top-level table `mcp_servers` with one subtable per server name
in input order; each subtable carries exactly the fields present on the
entry (absent fields are omitted, never emitted); and the demo map encodes
to the expected `mcp_servers.demo` table. -/
theorem C8_codex_encoder :
    (∀ (d1 d2 : JValue) (f : List (String × JValue)),
        FORMAT_STRATEGIES .codex d1 f = convertToToml f
        ∧ FORMAT_STRATEGIES .codex d1 f = FORMAT_STRATEGIES .codex d2 f)
    ∧ (∀ f : List (String × JValue),
        convertToTomlTree f = .obj [("mcp_servers", .obj (convertToTomlSubtables f))]
        ∧ (convertToTomlSubtables f).map Prod.fst = f.map Prod.fst)
    ∧ (∀ (f : List (String × JValue)) (name : String) (fields : List (String × JValue)),
        (name, JValue.obj fields) ∈ f →
        (name, JValue.obj fields) ∈ convertToTomlSubtables f)
    ∧ (∀ (fields : List (String × JValue)) (key : String),
        jLookup (serverTomlFields (.obj fields)) key = jLookup fields key)
    ∧ convertToTomlTree
        [("demo", .obj [("command", .str "run"), ("args", .arr [.str "-x"]),
          ("env", .obj [("KEY", .str "abc123")])])]
      = .obj [("mcp_servers", .obj [("demo", .obj [("command", .str "run"),
          ("args", .arr [.str "-x"]), ("env", .obj [("KEY", .str "abc123")])])])]
    ∧ convertToToml
        [("demo", .obj [("command", .str "run"), ("args", .arr [.str "-x"]),
          ("env", .obj [("KEY", .str "abc123")])])]
      = "[mcp_servers.demo]\ncommand = \"run\"\nargs = [ \"-x\" ]\nenv = \x7b KEY = \"abc123\" \x7d\n" := by
  refine ⟨fun d1 d2 f => ⟨rfl, rfl⟩, fun f => ⟨rfl, ?_⟩, ?_, fun fields key => rfl, rfl, rfl⟩
  · simp [convertToTomlSubtables]
  · intro f name fields hmem
    have := List.mem_map_of_mem
      (fun kv : String × JValue => (kv.1, JValue.obj (serverTomlFields kv.2))) hmem
    simpa [convertToTomlSubtables, serverTomlFields] using this

/-- C8, witness: subtable membership applied at a concrete server map. -/
theorem C8_witness :
    ("demo", JValue.obj [("command", JValue.str "run")])
      ∈ convertToTomlSubtables [("demo", JValue.obj [("command", JValue.str "run")])] :=
  C8_codex_encoder.2.2.1 [("demo", JValue.obj [("command", JValue.str "run")])]
    "demo" [("command", JValue.str "run")] (List.Mem.head _)

/-! ### Claim C3 — schema validation strips unknown fields -/

/-- C3, counterexample.  The claim states unknown top-level keys and extra
server-entry fields are preserved.  zod object schemas strip unknown keys by
default: parsing `\x7btheme: "dark", mcpServers: \x7b\x7d\x7d` drops `theme`,
and a server entry's extra `note` field is dropped as well. -/
theorem C3_counterexample :
    parseSettings (.obj [("theme", .str "dark"), ("mcpServers", .obj [])])
      = some (.obj [("mcpServers", .obj [])])
    ∧ jLookup [("mcpServers", JValue.obj [])] "theme" = none
    ∧ parseServerEntry (.obj [("command", .str "run"), ("note", .str "keep me")])
      = some (.obj [("command", .str "run")]) :=
  ⟨rfl, rfl, rfl⟩

/-- C3, amended.  `SettingsLoader`'s schema validation operates in zod's
default strip mode: the returned document contains at most the key
`mcpServers`; each validated server entry contains at most `command`, `args`
and `env`, every retained field's value being passed through untouched; and
when `mcpServers` is present its server names and their order are
preserved. -/
theorem C3_loader_strips_amended :
    (∀ (kvs : List (String × JValue)) (out : JValue),
        parseSettings (.obj kvs) = some out →
        ∃ okvs, out = .obj okvs ∧ ∀ p ∈ okvs, p.1 = "mcpServers")
    ∧ (∀ (fields : List (String × JValue)) (out : JValue),
        parseServerEntry (.obj fields) = some out →
        ∃ fs, out = .obj fs ∧ ∀ p ∈ fs,
          (p.1 = "command" ∨ p.1 = "args" ∨ p.1 = "env")
          ∧ jLookup fields p.1 = some p.2)
    ∧ (∀ (kvs entries : List (String × JValue)) (out : JValue),
        parseSettings (.obj kvs) = some out →
        jLookup kvs "mcpServers" = some (.obj entries) →
        ∃ entries', parseServerRecord entries = some entries'
          ∧ out = .obj [("mcpServers", .obj entries')]
          ∧ entries'.map Prod.fst = entries.map Prod.fst) := by
  refine ⟨?_, ?_, ?_⟩
  · intro kvs out h
    have h' : (match jLookup kvs "mcpServers" with
        | none => some (JValue.obj [])
        | some (.obj entries) =>
          match parseServerRecord entries with
          | none => none
          | some entries' => some (.obj [("mcpServers", .obj entries')])
        | some _ => none) = some out := h
    clear h
    split at h'
    · cases h'
      exact ⟨[], rfl, by simp⟩
    · split at h'
      · cases h'
      · rename_i entries' hr
        cases h'
        refine ⟨[("mcpServers", .obj entries')], rfl, ?_⟩
        intro p hp
        simp at hp
        rw [hp]
    · cases h'
  · intro fields out h
    have h' : (match zodField fields "command" isStr with
        | none => none
        | some c =>
          match zodField fields "args" isStrArr with
          | none => none
          | some a =>
            match zodField fields "env" isStrObj with
            | none => none
            | some e => some (JValue.obj (c ++ a ++ e))) = some out := h
    clear h
    split at h'
    · cases h'
    · rename_i c hc
      split at h'
      · cases h'
      · rename_i a ha
        split at h'
        · cases h'
        · rename_i ev he
          cases h'
          refine ⟨c ++ a ++ ev, rfl, ?_⟩
          intro p hp
          rcases List.mem_append.mp hp with hp' | hp'
          · rcases List.mem_append.mp hp' with hp'' | hp''
            · have := zodField_mem fields "command" isStr c hc p hp''
              exact ⟨Or.inl this.1, this.1 ▸ this.2⟩
            · have := zodField_mem fields "args" isStrArr a ha p hp''
              exact ⟨Or.inr (Or.inl this.1), this.1 ▸ this.2⟩
          · have := zodField_mem fields "env" isStrObj ev he p hp'
            exact ⟨Or.inr (Or.inr this.1), this.1 ▸ this.2⟩
  · intro kvs entries out h hl
    have h' : (match jLookup kvs "mcpServers" with
        | none => some (JValue.obj [])
        | some (.obj entries) =>
          match parseServerRecord entries with
          | none => none
          | some entries' => some (.obj [("mcpServers", .obj entries')])
        | some _ => none) = some out := h
    clear h
    rw [hl] at h'
    have h2 : (match parseServerRecord entries with
        | none => none
        | some entries' => some (JValue.obj [("mcpServers", .obj entries')])) = some out := h'
    clear h'
    split at h2
    · cases h2
    · rename_i entries' hr
      cases h2
      exact ⟨entries', hr, rfl, parseServerRecord_keys entries entries' hr⟩

/-- C3, witness: the amended theorem applied at concrete inputs. -/
theorem C3_witness :
    (∃ okvs, JValue.obj [("mcpServers", JValue.obj [])] = .obj okvs
      ∧ ∀ p ∈ okvs, p.1 = "mcpServers") :=
  C3_loader_strips_amended.1 [("theme", .str "dark"), ("mcpServers", .obj [])]
    (.obj [("mcpServers", .obj [])]) rfl

theorem objSpreadSet_obtain (v : JValue) (k : String) (nv : JValue) :
    ∃ kvs, objSpreadSet v k nv = .obj kvs ∧ jLookup kvs k = some nv := by
  match v with
  | .obj kvs => exact ⟨setEntry kvs k nv, rfl, jLookup_setEntry_self kvs k nv⟩
  | .str _ | .num _ | .bool _ | .null | .arr _ =>
    exact ⟨[(k, nv)], rfl, by simp [jLookup]⟩

/-! ### Claim C1 — the single-target deployment pipeline -/

/-- C1 (confirmed).  A successful single-target deployment writes to the
target's fixed path exactly the content of the spec pipeline
load → expand → filter → encode; and for the three JSON targets that content
is the full (expanded) document with `mcpServers` replaced by the filtered
map, serialized as 2-space-indented JSON. -/
theorem C1_single_target_pipeline (e : Env) (home : String) (v parsed : JValue)
    (w : TargetName → Bool) (t : TargetName)
    (hparse : parseSettings v = some parsed) (hw : w t = true) :
    deployToTarget ⟨e, .content v, w⟩ home t
      = .written (targetPath home t) (specPipelineContent e parsed t)
    ∧ (t ≠ .codex → specPipelineContent e parsed t
        = jsonStringify (objSpreadSet (expandEnvVars e parsed) "mcpServers"
            (.obj (filterServersForTarget (serversOf (expandEnvVars e parsed)) t)))) := by
  constructor
  · simp [deployToTarget, loadMcpSettings, hparse, hw, specPipelineContent]
  · intro ht
    cases t with
    | codex => exact absurd rfl ht
    | claudeDesktop => rfl
    | gemini => rfl
    | claudeCode => rfl

/-- C1, witness: the theorem applied at a concrete document, environment and
target. -/
theorem C1_witness :
    deployToTarget ⟨[("TOKEN", "abc123")],
        .content (.obj [("mcpServers", .obj [("demo",
          .obj [("command", .str "run")])])]),
        fun _ => true⟩ "/home/user" .gemini
      = .written (targetPath "/home/user" .gemini)
          (specPipelineContent [("TOKEN", "abc123")]
            (.obj [("mcpServers", .obj [("demo", .obj [("command", .str "run")])])])
            .gemini) :=
  (C1_single_target_pipeline [("TOKEN", "abc123")] "/home/user"
    (.obj [("mcpServers", .obj [("demo", .obj [("command", .str "run")])])])
    (.obj [("mcpServers", .obj [("demo", .obj [("command", .str "run")])])])
    (fun _ => true) .gemini rfl rfl).1

/-! ### Claim C2 — failure isolation in "deploy all" mode -/

/-- C2, counterexample.  The claim states that with one target's output
directory unwritable, the other three targets' files are still written.  In
the code, a failing target's catch block calls `process.exit(1)`, which
terminates the whole process: with `claude-desktop` unwritable (and the
other three writable), *no* file is written at all, and the run ends with
the failure message naming the target. -/
theorem C2_counterexample :
    deployAll ⟨[], .content (.obj []),
        fun t => match t with | .claudeDesktop => false | _ => true⟩ "/home/user"
      = ([], some (deployFailMsg .claudeDesktop "write failed"))
    ∧ (fun t : TargetName => match t with | .claudeDesktop => false | _ => true)
        TargetName.codex = true
    ∧ (fun t : TargetName => match t with | .claudeDesktop => false | _ => true)
        TargetName.gemini = true
    ∧ (fun t : TargetName => match t with | .claudeDesktop => false | _ => true)
        TargetName.claudeCode = true
    ∧ deployFailMsg .claudeDesktop "write failed"
      = "Failed to deploy to claude-desktop: write failed" :=
  ⟨rfl, rfl, rfl, rfl, rfl⟩

/-- C2, amended.  Each failure is reported with the target name, but a
failing target terminates the whole process with exit code 1, so deployments
that have not completed by then are abandoned rather than isolated: when
every target is writable all four files are written, and when the first
target (`claude-desktop`) is unwritable nothing is written at all. -/
theorem C2_deploy_all_amended :
    (∀ (e : Env) (v parsed : JValue) (w : TargetName → Bool) (home : String),
        parseSettings v = some parsed → (∀ t, w t = true) →
        deployAll ⟨e, .content v, w⟩ home
          = (allTargets.map (fun t => (targetPath home t, specPipelineContent e parsed t)),
             none))
    ∧ (∀ (e : Env) (v parsed : JValue) (w : TargetName → Bool) (home : String),
        parseSettings v = some parsed → w .claudeDesktop = false →
        deployAll ⟨e, .content v, w⟩ home
          = ([], some (deployFailMsg .claudeDesktop "write failed"))) := by
  constructor
  · intro e v parsed w home hparse hw
    simp [deployAll, allTargets, deployAllFrom, deployToTarget, loadMcpSettings,
      hparse, hw, specPipelineContent]
  · intro e v parsed w home hparse hw0
    simp [deployAll, allTargets, deployAllFrom, deployToTarget, loadMcpSettings,
      hparse, hw0]

/-- C2, witness: both branches of the amended theorem at concrete worlds. -/
theorem C2_witness :
    deployAll ⟨[], .content (.obj []), fun _ => true⟩ "/home/user"
      = (allTargets.map (fun t => (targetPath "/home/user" t,
          specPipelineContent [] (.obj []) t)), none)
    ∧ deployAll ⟨[], .content (.obj []),
        fun t => match t with | .claudeDesktop => false | _ => true⟩ "/home/user"
      = ([], some (deployFailMsg .claudeDesktop "write failed")) :=
  ⟨C2_deploy_all_amended.1 [] (.obj []) (.obj []) (fun _ => true) "/home/user"
      rfl (fun _ => rfl),
   C2_deploy_all_amended.2 [] (.obj []) (.obj [])
      (fun t => match t with | .claudeDesktop => false | _ => true) "/home/user"
      rfl rfl⟩

/-! ### Claim C6 — idempotence of expand-then-filter -/

/-- C6, counterexample.  The claim states `filter(expand(·), T)` is
idempotent for *every* valid document and environment.  With
`FOO = "$\x7bBAR\x7d"` and `BAR = "x"`, one application turns the command
`"$\x7bFOO\x7d"` into `"$\x7bBAR\x7d"`, and a second application expands that
again to `"x"`: the two results differ. -/
theorem C6_counterexample :
    pipeDoc [("FOO", "$\x7bBAR\x7d"), ("BAR", "x")] .claudeDesktop
        (pipeDoc [("FOO", "$\x7bBAR\x7d"), ("BAR", "x")] .claudeDesktop
          (.obj [("mcpServers", .obj [("a", .obj [("command", .str "$\x7bFOO\x7d")])])]))
      ≠ pipeDoc [("FOO", "$\x7bBAR\x7d"), ("BAR", "x")] .claudeDesktop
          (.obj [("mcpServers", .obj [("a", .obj [("command", .str "$\x7bFOO\x7d")])])]) := by
  intro h
  exact absurd (congrArg jsonStringify h) (by decide)

/-- C6, amended.  Target filtering alone is idempotent for every target, and
the combined expand-then-filter transformation is idempotent on every
document whose expansion contains no `$` in any string value (in particular
whenever every substitution completed and no literal token remains); in
general a second application can expand further (see the counterexample). -/
theorem C6_pipeline_idem_amended :
    (∀ (entries : List (String × JValue)) (t : TargetName),
        filterServersForTarget (filterServersForTarget entries t) t
          = filterServersForTarget entries t)
    ∧ (∀ (e : Env) (t : TargetName) (d : JValue),
        jNoDollar (expandEnvVars e d) = true →
        pipeDoc e t (pipeDoc e t d) = pipeDoc e t d) := by
  refine ⟨filterServersForTarget_idem, ?_⟩
  intro e t d h
  have hF : jNoDollarEntries
      (filterServersForTarget (serversOf (expandEnvVars e d)) t) = true := by
    have hs := jNoDollar_serversOf (expandEnvVars e d) h
    unfold filterServersForTarget
    by_cases ht : t = .claudeCode
    · rw [if_pos ht]
      exact jNoDollarEntries_filter _ _ hs
    · rw [if_neg ht]
      exact hs
  have hFobj : jNoDollar (JValue.obj
      (filterServersForTarget (serversOf (expandEnvVars e d)) t)) = true := by
    simpa [jNoDollar] using hF
  have hP : jNoDollar (pipeDoc e t d) = true :=
    jNoDollar_objSpreadSet _ _ _ h hFobj
  have hexp : expandEnvVars e (pipeDoc e t d) = pipeDoc e t d :=
    expandVal_of_noDollar _ _ hP
  show objSpreadSet (expandEnvVars e (pipeDoc e t d)) "mcpServers"
      (.obj (filterServersForTarget (serversOf (expandEnvVars e (pipeDoc e t d))) t))
    = pipeDoc e t d
  rw [hexp]
  show objSpreadSet (pipeDoc e t d) "mcpServers"
      (.obj (filterServersForTarget (serversOf (objSpreadSet (expandEnvVars e d)
        "mcpServers" (.obj (filterServersForTarget (serversOf (expandEnvVars e d)) t)))) t))
    = pipeDoc e t d
  rw [serversOf_objSpreadSet, filterServersForTarget_idem]
  exact objSpreadSet_idem _ _ _

/-- C6, witness: the amended theorem at a concrete fully-expanded document. -/
theorem C6_witness :
    pipeDoc [] .claudeCode
        (pipeDoc [] .claudeCode
          (.obj [("mcpServers", .obj [("a", .obj [("command", .str "run")])])]))
      = pipeDoc [] .claudeCode
          (.obj [("mcpServers", .obj [("a", .obj [("command", .str "run")])])]) :=
  C6_pipeline_idem_amended.2 [] .claudeCode
    (.obj [("mcpServers", .obj [("a", .obj [("command", .str "run")])])]) (by decide)

/-! ### Claim C9 — the JSON output always materializes `mcpServers` -/

/-- C9 (confirmed).  For every successfully deployed JSON target, the
serialized object always contains an `mcpServers` key holding the filtered
map; in particular, when the source document has no `mcpServers` field at
all, the key is materialized as the empty object rather than omitted. -/
theorem C9_json_materializes_mcpServers (e : Env) (home : String)
    (v parsed : JValue) (w : TargetName → Bool) (t : TargetName)
    (hparse : parseSettings v = some parsed) (hw : w t = true)
    (ht : t ≠ .codex) :
    ∃ kvs, deployToTarget ⟨e, .content v, w⟩ home t
        = .written (targetPath home t) (jsonStringify (.obj kvs))
      ∧ jLookup kvs "mcpServers"
        = some (.obj (filterServersForTarget (serversOf (expandEnvVars e parsed)) t))
      ∧ (jLookupJ parsed "mcpServers" = none →
          jLookup kvs "mcpServers" = some (.obj [])) := by
  obtain ⟨kvs, hobj, hlk⟩ := objSpreadSet_obtain (expandEnvVars e parsed) "mcpServers"
    (.obj (filterServersForTarget (serversOf (expandEnvVars e parsed)) t))
  refine ⟨kvs, ?_, hlk, ?_⟩
  · have hfmt : FORMAT_STRATEGIES t (expandEnvVars e parsed)
        (filterServersForTarget (serversOf (expandEnvVars e parsed)) t)
        = jsonStringify (.obj kvs) := by
      cases t with
      | codex => exact absurd rfl ht
      | claudeDesktop => rw [← hobj]; rfl
      | gemini => rw [← hobj]; rfl
      | claudeCode => rw [← hobj]; rfl
    simp [deployToTarget, loadMcpSettings, hparse, hw, hfmt]
  · intro hnone
    rw [hlk]
    unfold expandEnvVars
    rw [serversOf_expand_of_none _ _ hnone, filterServersForTarget_nil]

/-- C9, witness: the theorem applied to a document with no `mcpServers`
field; the deployed JSON contains `mcpServers` as the empty object. -/
theorem C9_witness :
    ∃ kvs, deployToTarget ⟨[], .content (.obj [("note", .str "no servers")]),
        fun _ => true⟩ "/home/user" .claudeDesktop
        = .written (targetPath "/home/user" .claudeDesktop) (jsonStringify (.obj kvs))
      ∧ jLookup kvs "mcpServers"
        = some (.obj (filterServersForTarget
            (serversOf (expandEnvVars [] (.obj []))) .claudeDesktop))
      ∧ (jLookupJ (.obj []) "mcpServers" = none →
          jLookup kvs "mcpServers" = some (.obj [])) :=
  C9_json_materializes_mcpServers [] "/home/user"
    (.obj [("note", .str "no servers")]) (.obj []) (fun _ => true) .claudeDesktop
    rfl rfl (by decide)

end Vibe
